import Mathlib

/-!
Shallow embedding of the `xfetch` HTTP pipeline (src/fetch.ts, src/system.ts,
src/error.ts) in Lean 4, together with theorems settling the specification
claims about it.

JavaScript strings are modelled as lists of characters (`JSStr`), JS runtime
values used as request bodies as the inductive `JSValue`, and the mutable
`Headers` / `URLSearchParams` objects as identity-tagged records (an `id`
field models object identity, so "returns the same instance" is `id`
preservation and "fresh instance" is a new `id`).
-/

namespace XFetch

/-- JS strings, modelled as lists of characters. -/
abbrev JSStr := List Char

/-- JS `String.prototype.startsWith`: does `s` begin with `pat`? -/
def jsStartsWith : JSStr → JSStr → Bool
  | _, [] => true
  | [], _ :: _ => false
  | c :: cs, d :: ds => c == d && jsStartsWith cs ds

/-- JS `String.prototype.endsWith`: does `s` end with `pat`? -/
def jsEndsWith (s pat : JSStr) : Bool :=
  jsStartsWith s.reverse pat.reverse

/-- JS `String.prototype.includes`: does `s` contain `pat` as a contiguous
substring? -/
def jsIncludes : JSStr → JSStr → Bool
  | [], pat => jsStartsWith [] pat
  | c :: t, pat => jsStartsWith (c :: t) pat || jsIncludes t pat

/-- JS `String.prototype.trim` (whitespace stripped from both ends). -/
def jsTrim (s : JSStr) : JSStr :=
  ((s.dropWhile Char.isWhitespace).reverse.dropWhile Char.isWhitespace).reverse

/-- JS `String.prototype.split` with a single-character separator (the only
form the source uses: `split(";")` and `split("=")`). -/
def jsSplitChar (s : JSStr) (sep : Char) : List JSStr :=
  s.foldr
    (fun c acc =>
      if c = sep then [] :: acc
      else
        match acc with
        | [] => [[c]]
        | g :: gs => (c :: g) :: gs)
    [[]]

/-- ASCII lower-casing of a JS string (used for case-insensitive header
names). -/
def lowerStr (s : JSStr) : JSStr := s.map Char.toLower

/-- ASCII upper-casing, JS `String.prototype.toUpperCase` on the method
strings the source handles. -/
def upperStr (s : JSStr) : JSStr := s.map Char.toUpper

/-- JS runtime values that can appear as a logical request body.  The first
six constructors are ordinary JSON-able data; `formData`, `blobVal` and
`urlParams` model the `FormData`, `Blob` and `URLSearchParams` carrier
objects the body codec tests with `instanceof`. -/
inductive JSValue where
  | jsNull : JSValue
  | jsBool : Bool → JSValue
  | jsNum : Int → JSValue
  | jsStr : JSStr → JSValue
  | jsArr : List JSValue → JSValue
  | jsObj : List (JSStr × JSValue) → JSValue
  | formData : List (JSStr × JSStr) → JSValue
  | blobVal : List Nat → JSValue
  | urlParams : List (JSStr × JSStr) → JSValue

/-- Escape one character for a JSON string literal (the cases relevant to
`JSON.stringify` on the character data we model). -/
def jsonEscapeChar (c : Char) : JSStr :=
  if c = '"' then ['\\', '"']
  else if c = '\\' then ['\\', '\\']
  else if c = '\n' then ['\\', 'n']
  else if c = '\t' then ['\\', 't']
  else if c = '\r' then ['\\', 'r']
  else [c]

/-- Escape a whole JSON string literal body. -/
def jsonEscape (s : JSStr) : JSStr := s.flatMap jsonEscapeChar

/-- Render an integer the way `JSON.stringify` renders it. -/
def jsonNum (n : Int) : JSStr := (toString n).data

mutual

/-- `JSON.stringify` on the modelled JS values.  The carrier objects
(`FormData`, `Blob`, `URLSearchParams`) have no enumerable own properties,
so `JSON.stringify` renders them as the empty object. -/
def jsonStringify : JSValue → JSStr
  | .jsNull => "null".data
  | .jsBool true => "true".data
  | .jsBool false => "false".data
  | .jsNum n => jsonNum n
  | .jsStr s => '"' :: (jsonEscape s ++ ['"'])
  | .jsArr xs => '[' :: (jsonStringifyList xs ++ [']'])
  | .jsObj fs => '\x7b' :: (jsonStringifyFields fs ++ ['\x7d'])
  | .formData _ => ['\x7b', '\x7d']
  | .blobVal _ => ['\x7b', '\x7d']
  | .urlParams _ => ['\x7b', '\x7d']

/-- Comma-separated JSON rendering of an array's elements. -/
def jsonStringifyList : List JSValue → JSStr
  | [] => []
  | [x] => jsonStringify x
  | x :: y :: t => jsonStringify x ++ (',' :: jsonStringifyList (y :: t))

/-- Comma-separated JSON rendering of an object's fields. -/
def jsonStringifyFields : List (JSStr × JSValue) → JSStr
  | [] => []
  | [(k, v)] => ('"' :: (jsonEscape k ++ ['"', ':'])) ++ jsonStringify v
  | (k, v) :: p :: t =>
      (('"' :: (jsonEscape k ++ ['"', ':'])) ++ jsonStringify v) ++
        (',' :: jsonStringifyFields (p :: t))

end

/-- A `Headers` object.  `id` models JS object identity (a fresh instance
gets a fresh id); header names are stored lower-cased because `Headers`
name lookup and storage are case-insensitive. -/
structure HeadersObj where
  id : Nat
  entries : List (JSStr × JSStr)
deriving DecidableEq

/-- `Headers.prototype.append` on the entry list: a new name is added at the
end, an existing name has the new value combined onto the old one with
a comma separator (Fetch-standard combining used by the constructor). -/
def hAppendEntries (es : List (JSStr × JSStr)) (n v : JSStr) : List (JSStr × JSStr) :=
  if es.any (fun p => p.1 == n) then
    es.map (fun p => if p.1 == n then (p.1, p.2 ++ (", ".data ++ v)) else p)
  else es ++ [(n, v)]

/-- `new Headers(init)`: copies the init entries into a fresh object,
lower-casing names and combining duplicates (models src/fetch.ts line 108,
`new Headers(requestInit.headers || \x7b\x7d)`). -/
def headersNew (fresh : Nat) (init : List (JSStr × JSStr)) : HeadersObj :=
  ⟨fresh, init.foldl (fun es p => hAppendEntries es (lowerStr p.1) p.2) []⟩

/-- `Headers.prototype.set` on the entry list: replace the value of an
existing name, else add the pair at the end. -/
def hSetEntries (es : List (JSStr × JSStr)) (n v : JSStr) : List (JSStr × JSStr) :=
  if es.any (fun p => p.1 == n) then
    es.map (fun p => if p.1 == n then (p.1, v) else p)
  else es ++ [(n, v)]

/-- `Headers.prototype.set` (case-insensitive in the name, mutates the
object in place: same `id`, updated entries). -/
def hSet (h : HeadersObj) (name v : JSStr) : HeadersObj :=
  ⟨h.id, hSetEntries h.entries (lowerStr name) v⟩

/-- `Headers.prototype.get`: case-insensitive lookup, `none` models the JS
`null` result for an absent header. -/
def hGet (h : HeadersObj) (name : JSStr) : Option JSStr :=
  (h.entries.find? (fun p => p.1 == lowerStr name)).map (fun p => p.2)

/-- A `URLSearchParams` object, identity-tagged like `HeadersObj`. -/
structure USP where
  id : Nat
  entries : List (JSStr × JSStr)
deriving DecidableEq

/-- A JS value appearing in a query-parameter record: either a scalar
(already coerced to its string form) or an array of scalars. -/
inductive QVal where
  | prim : JSStr → QVal
  | arr : List JSStr → QVal
deriving DecidableEq

/-- `URLSearchParams.prototype.set` on the entry list: the first entry with
the key keeps its position and gets the new value, later entries with the
key are removed; an absent key is appended. -/
def uspSet : List (JSStr × JSStr) → JSStr → JSStr → List (JSStr × JSStr)
  | [], k, v => [(k, v)]
  | (k0, v0) :: rest, k, v =>
    if k0 = k then (k, v) :: rest.filter (fun p => p.1 ≠ k)
    else (k0, v0) :: uspSet rest k v

/-- `URLSearchParams.prototype.append` on the entry list. -/
def uspAppend (es : List (JSStr × JSStr)) (k v : JSStr) : List (JSStr × JSStr) :=
  es ++ [(k, v)]

/-- One iteration of the `for (const key in queryParams)` loop body of
`queryParams` (src/system.ts lines 54-66): `undefined` values are skipped;
with a formatter the formatted value is `set`; otherwise arrays are
`append`ed element-wise and scalars are `set`. -/
def qpStep (format : Option (JSStr → QVal → JSStr)) (acc : List (JSStr × JSStr))
    (kv : JSStr × Option QVal) : List (JSStr × JSStr) :=
  match kv.2 with
  | none => acc
  | some v =>
    match format with
    | some f => uspSet acc kv.1 (f kv.1 v)
    | none =>
      match v with
      | .arr vs => vs.foldl (fun a x => uspAppend a kv.1 x) acc
      | .prim s => uspSet acc kv.1 s

/-- The record branch of `queryParams` (src/system.ts lines 52-68): iterate
the record in key order, building a fresh entry list. -/
def queryParamsFn (qp : List (JSStr × Option QVal))
    (format : Option (JSStr → QVal → JSStr)) : List (JSStr × JSStr) :=
  qp.foldl (qpStep format) []

/-- `queryParams` (src/system.ts lines 44-69) including its first branch:
a pre-built `URLSearchParams` is returned as-is (the same object, same
`id`); a record is encoded into a `new URLSearchParams()` (fresh `id`). -/
def queryParamsM (qp : Sum (List (JSStr × Option QVal)) USP)
    (format : Option (JSStr → QVal → JSStr)) (fresh : Nat) : USP :=
  match qp with
  | .inr usp => usp
  | .inl rec0 => ⟨fresh, queryParamsFn rec0 format⟩

/-- Upper-case hex digit for percent-encoding. -/
def hexDigit (n : Nat) : Char :=
  if n < 10 then Char.ofNat ('0'.toNat + n) else Char.ofNat ('A'.toNat + (n - 10))

/-- UTF-8 byte sequence of one character (for percent-encoding). -/
def utf8Bytes (c : Char) : List Nat :=
  let n := c.toNat
  if n < 0x80 then [n]
  else if n < 0x800 then [0xC0 + n / 64, 0x80 + n % 64]
  else if n < 0x10000 then [0xE0 + n / 4096, 0x80 + (n / 64) % 64, 0x80 + n % 64]
  else [0xF0 + n / 262144, 0x80 + (n / 4096) % 64, 0x80 + (n / 64) % 64, 0x80 + n % 64]

/-- Percent-encode one byte as `%XY`. -/
def pctByte (b : Nat) : JSStr := ['%', hexDigit (b / 16), hexDigit (b % 16)]

/-- Characters `encodeURIComponent` leaves unescaped. -/
def uriUnreserved (c : Char) : Bool :=
  c.isAlphanum || c = '-' || c = '_' || c = '.' || c = '!' ||
    c = '~' || c = '*' || c.toNat = 39 || c = '(' || c = ')'

/-- JS `encodeURIComponent`. -/
def encodeURIComponent (s : JSStr) : JSStr :=
  s.flatMap (fun c => if uriUnreserved c then [c] else (utf8Bytes c).flatMap pctByte)

/-- Characters the `application/x-www-form-urlencoded` serializer leaves
unescaped (used by `URLSearchParams.prototype.toString`). -/
def formUnreserved (c : Char) : Bool :=
  c.isAlphanum || c = '*' || c = '-' || c = '.' || c = '_'

/-- Form-urlencode one character (space becomes `+`). -/
def formEncodeChar (c : Char) : JSStr :=
  if c = ' ' then ['+']
  else if formUnreserved c then [c]
  else (utf8Bytes c).flatMap pctByte

/-- Form-urlencode a string. -/
def formEncode (s : JSStr) : JSStr := s.flatMap formEncodeChar

/-- `URLSearchParams.prototype.toString`: `k=v` pairs joined by `&`. -/
def uspToString : List (JSStr × JSStr) → JSStr
  | [] => []
  | [(k, v)] => formEncode k ++ ('=' :: formEncode v)
  | (k, v) :: p :: t =>
      (formEncode k ++ ('=' :: formEncode v)) ++ ('&' :: uspToString (p :: t))

/-- A character matching the path-variable name class `[a-zA-Z0-9_]`. -/
def isVarChar (c : Char) : Bool := c.isAlphanum || c = '_'

/-- Lookup of `pathVariables[name]`; `none` covers both a missing key and an
explicitly `undefined` value (the `value == null` test in the source). -/
def lookupVar (vars : List (JSStr × Option JSStr)) (name : JSStr) : Option JSStr :=
  (vars.find? (fun p => p.1 == name)).bind (fun p => p.2)

/-- The global-regex replacement loop of `replacePathVariables`
(src/system.ts lines 78-89): scan left to right; at `:` followed by at least
one name character, replace the whole `:name` match by the formatted or
percent-encoded value, or keep the literal placeholder when the variable has
no usable value. -/
def replaceVarsGo (vars : List (JSStr × Option JSStr))
    (format : Option (JSStr → JSStr → JSStr)) : JSStr → JSStr
  | [] => []
  | c :: rest =>
    if c = ':' then
      let name := rest.takeWhile isVarChar
      if name.isEmpty then c :: replaceVarsGo vars format rest
      else
        (match lookupVar vars name with
          | none => ':' :: name
          | some v =>
            match format with
            | some f => f name v
            | none => encodeURIComponent v) ++
          replaceVarsGo vars format (rest.dropWhile isVarChar)
    else c :: replaceVarsGo vars format rest
termination_by s => s.length
decreasing_by
  · simp
  · simp only [List.length_cons]
    have h : ∀ l : List Char, (l.dropWhile isVarChar).length ≤ l.length := by
      intro l
      induction l with
      | nil => simp [List.dropWhile]
      | cons a t ih =>
        simp only [List.dropWhile]
        cases isVarChar a
        · simp
        · simp
          omega
    exact Nat.lt_succ_of_le (h rest)
  · simp

/-- `replacePathVariables` (src/system.ts lines 78-89). -/
def replacePathVariables (path : JSStr) (vars : List (JSStr × Option JSStr))
    (format : Option (JSStr → JSStr → JSStr)) : JSStr :=
  replaceVarsGo vars format path

/-- `normalizePath` (src/system.ts lines 3-14): empty or `"/"` collapses to
the empty string; a segment not starting with `/` gets one prepended; a
segment starting with `/` loses one trailing `/` when longer than one
character. -/
def normalizePath (path : JSStr) : JSStr :=
  if path = [] ∨ path = ['/'] then []
  else if ¬ jsStartsWith path ['/'] then '/' :: path
  else if path.length > 1 ∧ jsEndsWith path ['/'] then path.dropLast
  else path

/-- `normalizeUrl` (src/system.ts lines 16-21): strip one trailing slash
when the URL is longer than one character. -/
def normalizeUrl (url : JSStr) : JSStr :=
  if url.length > 1 ∧ jsEndsWith url ['/'] then url.dropLast else url

/-- CSRF options of the request configuration. -/
structure CsrfCfg where
  token : Option JSStr := none
  fromCookie : Option JSStr := none
  headerName : Option JSStr := none
  defaultMatcher : Bool := false

/-- The response-resolution modes of `XResponseResolution`. -/
inductive ResolutionMode where
  | response | raw | auto | void | blobMode | fileMode
deriving DecidableEq

/-- The request configuration `XRequestInit` (src/fetch.ts lines 19-93),
restricted to the fields the pipeline reads.  Formatters are modelled as
functions returning the already-string-coerced result, the JSON reviver by
its presence, and the abort signal by an opaque tag. -/
structure RequestInitM where
  method : Option JSStr := none
  baseUrl : Option JSStr := none
  pathPrefix : Option JSStr := none
  jsonReviver : Bool := false
  pathVariables : Option (List (JSStr × Option JSStr)) := none
  formatPathVariables : Option (JSStr → JSStr → JSStr) := none
  queryParams : Option (Sum (List (JSStr × Option QVal)) USP) := none
  formatQueryParams : Option (JSStr → QVal → JSStr) := none
  headers : List (JSStr × JSStr) := []
  body : Option JSValue := none
  credentials : Option JSStr := none
  cache : Option JSStr := none
  cors : Option JSStr := none
  priority : Option JSStr := none
  forceFollowRedirects : Bool := false
  opaqueOk : Bool := false
  csrf : Option CsrfCfg := none
  abortSignal : Option Nat := none
  responseResolution : Option ResolutionMode := none

/-- The query entry list seen by `createUrl`: the value content of
`queryParams(requestInit.queryParams || \x7b\x7d, requestInit.formatQueryParams)`
(a pre-built collection contributes its own entries, a record is encoded). -/
def queryEntries (qp : Option (Sum (List (JSStr × Option QVal)) USP))
    (format : Option (JSStr → QVal → JSStr)) : List (JSStr × JSStr) :=
  match qp with
  | none => queryParamsFn [] format
  | some (.inr usp) => usp.entries
  | some (.inl rec0) => queryParamsFn rec0 format

/-- `createUrl` (src/system.ts lines 26-39): query string from the params
(prefixed by `?` when non-empty), base URL normalized when truthy, prefix
and path normalized independently and concatenated, path variables replaced
when the map is present and non-empty. -/
def createUrl (path : JSStr) (ri : RequestInitM) : JSStr :=
  let params := queryEntries ri.queryParams ri.formatQueryParams
  let queryStr := if params.length ≠ 0 then '?' :: uspToString params else []
  let baseUrl :=
    match ri.baseUrl with
    | some b => if b ≠ [] then normalizeUrl b else []
    | none => []
  let path0 :=
    (match ri.pathPrefix with
      | some p => if p ≠ [] then normalizePath p else []
      | none => []) ++ normalizePath path
  let path1 :=
    match ri.pathVariables with
    | some vars =>
        if vars.length ≠ 0 then replacePathVariables path0 vars ri.formatPathVariables
        else path0
    | none => path0
  baseUrl ++ path1 ++ queryStr

/-- The normalized method of the pipeline (src/fetch.ts line 106):
`(requestInit.method || "GET").toUpperCase()`; the empty string is falsy in
JS and also falls back to `GET`. -/
def normalizedMethod (m : Option JSStr) : JSStr :=
  upperStr
    (match m with
      | some s => if s = [] then "GET".data else s
      | none => "GET".data)

/-- The body-codec step (src/fetch.ts lines 112-146) as a function from the
caller's `Content-Type` header value and the logical body to the pair
(content-type after the step, wire body).  An absent body yields neither; a
caller-set content-type passes the body through untouched; otherwise the
body is classified by runtime shape in the fixed `instanceof` order of the
source.  `JSON.stringify` is total on the modelled values, so the
serialization catch branch is unreachable here. -/
def encodeBody (ct0 : Option JSStr) (b : Option JSValue) :
    Option JSStr × Option JSValue :=
  match b with
  | none => (ct0, none)
  | some v =>
    match ct0 with
    | some ct => (some ct, some v)
    | none =>
      match v with
      | .formData e => (none, some (.formData e))
      | .blobVal bs => (some "application/octet-stream".data, some (.blobVal bs))
      | .urlParams e =>
          (some "application/x-www-form-urlencoded".data, some (.urlParams e))
      | .jsStr s => (some "text/plain".data, some (.jsStr s))
      | other => (some "application/json".data, some (.jsStr (jsonStringify other)))

/-- The CSRF method gate (src/fetch.ts lines 152-155): inject unless
`defaultMatcher` is set and the normalized method is outside
POST/PUT/DELETE/PATCH. -/
def csrfGate (defaultMatcher : Bool) (method : JSStr) : Bool :=
  !defaultMatcher ||
    (method = "POST".data || method = "PUT".data ||
      method = "DELETE".data || method = "PATCH".data)

/-- The cookie lookup of the CSRF injector (src/fetch.ts lines 164-168):
split the cookie list on `;`, find the first cookie whose trimmed text
starts with the cookie name, split that cookie on `=` and take element 1
(the segment between the first and second `=`), defaulting to the empty
string. -/
def cookieLookup (cookies : JSStr) (name : JSStr) : JSStr :=
  match (jsSplitChar cookies ';').find? (fun c => jsStartsWith (jsTrim c) name) with
  | none => []
  | some c => (jsSplitChar c '=').getD 1 []

/-- CSRF token-value resolution (src/fetch.ts lines 156-170): a truthy
explicit token wins; else a truthy cookie name triggers the cookie lookup;
else the value stays the empty string. -/
def csrfTokenValue (token : Option JSStr) (fromCookie : Option JSStr)
    (cookies : JSStr) : JSStr :=
  match token with
  | some t =>
    if t ≠ [] then t
    else
      match fromCookie with
      | some cn => if cn ≠ [] then cookieLookup cookies cn else []
      | none => []
  | none =>
    match fromCookie with
    | some cn => if cn ≠ [] then cookieLookup cookies cn else []
    | none => []

/-- The CSRF header name: `csrf.headerName || "X-CSRF-TOKEN"`. -/
def csrfHeaderName (headerName : Option JSStr) : JSStr :=
  match headerName with
  | some h => if h ≠ [] then h else "X-CSRF-TOKEN".data
  | none => "X-CSRF-TOKEN".data

/-- The whole CSRF injection step (src/fetch.ts lines 152-173): `none` when
no header is set (no config, or the gate rejects the method), otherwise the
(name, value) pair that is `headers.set` into the pipeline's header copy. -/
def csrfInject (csrf : Option CsrfCfg) (method : JSStr) (cookies : JSStr) :
    Option (JSStr × JSStr) :=
  match csrf with
  | none => none
  | some c =>
    if csrfGate c.defaultMatcher method then
      some (csrfHeaderName c.headerName,
        csrfTokenValue c.token c.fromCookie cookies)
    else none

/-- A response as the pipeline observes it: `ok` flag, HTTP status, the
response `type` string (`"opaque"` for opaque cross-origin responses), the
URL, and the response headers as name-value pairs (names lower-cased). -/
structure RespM where
  ok : Bool
  status : Nat
  rtype : JSStr := "basic".data
  url : JSStr := []
  headers : List (JSStr × JSStr) := []
deriving DecidableEq

/-- Lookup in the response header list (case-insensitive). -/
def respHeaderGet (r : RespM) (name : JSStr) : Option JSStr :=
  (r.headers.find? (fun p => p.1 == lowerStr name)).map (fun p => p.2)

/-- The underlying cause stored in an `XFetchError`: `none` models the JS
`undefined`, `exn` a caught exception, `locationStr` the redirect location
string. -/
inductive CauseM where
  | exn : JSStr → CauseM
  | locationStr : JSStr → CauseM
deriving DecidableEq

/-- The `XFetchError` data (src/error.ts): method, message, the response if
one was obtained, and the underlying cause. -/
structure ErrM where
  method : JSStr
  message : JSStr
  response : Option RespM
  cause : Option CauseM
deriving DecidableEq

/-- Outcome of the ok-check step (src/fetch.ts lines 194-201). -/
inductive OkOutcome where
  | proceed : OkOutcome
  | resolvedUndefined : OkOutcome
  | failed : ErrM → OkOutcome
deriving DecidableEq

/-- The ok-check step (src/fetch.ts lines 194-201): a not-ok response
resolves to `undefined` when `opaqueOk` is set and the response type is
`"opaque"`, and otherwise fails with the `Response not ok` error carrying
the response and an `undefined` cause; an ok response lets the pipeline
proceed. -/
def okCheck (opaqueOk : Bool) (method : JSStr) (r : RespM) : OkOutcome :=
  if !r.ok then
    if opaqueOk && r.rtype == "opaque".data then .resolvedUndefined
    else .failed ⟨method, "Response not ok".data, some r, none⟩
  else .proceed

/-- The outcome kinds of the default (`"auto"`) response-resolution branch
(src/fetch.ts lines 239-256). -/
inductive AutoData where
  | stream : AutoData
  | jsonReviverParsed : AutoData
  | jsonParsed : AutoData
  | blobData : AutoData
  | textData : AutoData
deriving DecidableEq

/-- The default (`"auto"`) response-resolution branch (src/fetch.ts lines
239-256): no content-type header yields the unread stream; a content-type
containing `application/json` is parsed as JSON (via text plus reviver when
one is configured); else `application/octet-stream` as blob; else
`text/plain` as text; anything else yields the unread stream. -/
def resolveAuto (ct : Option JSStr) (hasReviver : Bool) : AutoData :=
  match ct with
  | none => .stream
  | some c =>
    if jsIncludes c "application/json".data then
      if hasReviver then .jsonReviverParsed else .jsonParsed
    else if jsIncludes c "application/octet-stream".data then .blobData
    else if jsIncludes c "text/plain".data then .textData
    else .stream

/-- The argument record of the `fetch` transport call (src/fetch.ts lines
180-189), field by field. -/
structure TransportRequest where
  signal : Option Nat
  method : Option JSStr
  headers : HeadersObj
  body : Option JSValue
  credentials : Option JSStr
  cache : Option JSStr
  mode : Option JSStr
  priority : Option JSStr

/-- Assembly of the transport call's argument record (src/fetch.ts lines
180-189): every field is taken from `requestInit` unchanged — in
particular `method := requestInit.method`, the raw configured value, not
the pipeline's normalized local `method`. -/
def buildTransportRequest (ri : RequestInitM) (headers : HeadersObj)
    (body : Option JSValue) : TransportRequest :=
  { signal := ri.abortSignal
    method := ri.method
    headers := headers
    body := body
    credentials := ri.credentials
    cache := ri.cache
    mode := ri.cors
    priority := ri.priority }

/-- The straight-line request-preparation section of `xfetch` (src/fetch.ts
lines 106-189): normalize the method, copy the caller's headers into a
fresh `Headers` object, run the body codec against the copied headers, set
the resulting content-type if truthy, run the CSRF injector with the
normalized method, and assemble the transport call's argument record.
Returns the transport record together with the pipeline's local normalized
`method`.  `freshHeaders` is the identity of the freshly allocated header
copy. -/
def pipelineRequest (ri : RequestInitM) (cookies : JSStr) (freshHeaders : Nat) :
    TransportRequest × JSStr :=
  let method := normalizedMethod ri.method
  let headers0 := headersNew freshHeaders ri.headers
  let cb := encodeBody (hGet headers0 "Content-Type".data) ri.body
  let headers1 :=
    match cb.1 with
    | some ct => if ct ≠ [] then hSet headers0 "Content-Type".data ct else headers0
    | none => headers0
  let headers2 :=
    match csrfInject ri.csrf method cookies with
    | some nv => hSet headers1 nv.1 nv.2
    | none => headers1
  (buildTransportRequest ri headers2 cb.2, method)

/-- Well-formedness of a normalized path segment: empty, or starting with
exactly one `/` and not ending in `/`. -/
def segOk (p : JSStr) : Bool :=
  p.isEmpty ||
    ((p.head? == some '/') && !((p.drop 1).head? == some '/') &&
      !(p.getLast? == some '/'))

/-- No double slash is created where `a` and `b` are joined. -/
def joinOk (a b : JSStr) : Bool :=
  a.isEmpty || b.isEmpty || !((a.getLast? == some '/') && (b.head? == some '/'))

end XFetch

namespace XFetch

/-- Claim C1 (confirmed): when the caller supplied a logical body and did not
set a `Content-Type` header, the body codec classifies the body in the fixed
order form-data, blob, url-encoded-params, string, JSON-fallback: a
`FormData` carrier passes through with no content-type assigned, a `Blob`
with `application/octet-stream`, a `URLSearchParams` carrier with
`application/x-www-form-urlencoded`, a string with `text/plain`, and every
other value is JSON-serialized with `application/json`; in particular the
body corresponding to the object literal with field `name` set to `"a"`
yields content-type `application/json` and the `JSON.stringify` payload. -/
theorem claim1_body_codec (hs : HeadersObj)
    (h : hGet hs "Content-Type".data = none) :
    (∀ e, encodeBody (hGet hs "Content-Type".data) (some (.formData e)) =
      (none, some (.formData e))) ∧
    (∀ bs, encodeBody (hGet hs "Content-Type".data) (some (.blobVal bs)) =
      (some "application/octet-stream".data, some (.blobVal bs))) ∧
    (∀ e, encodeBody (hGet hs "Content-Type".data) (some (.urlParams e)) =
      (some "application/x-www-form-urlencoded".data, some (.urlParams e))) ∧
    (∀ s, encodeBody (hGet hs "Content-Type".data) (some (.jsStr s)) =
      (some "text/plain".data, some (.jsStr s))) ∧
    (∀ fs, encodeBody (hGet hs "Content-Type".data) (some (.jsObj fs)) =
      (some "application/json".data, some (.jsStr (jsonStringify (.jsObj fs))))) ∧
    (∀ xs, encodeBody (hGet hs "Content-Type".data) (some (.jsArr xs)) =
      (some "application/json".data, some (.jsStr (jsonStringify (.jsArr xs))))) ∧
    (∀ n, encodeBody (hGet hs "Content-Type".data) (some (.jsNum n)) =
      (some "application/json".data, some (.jsStr (jsonStringify (.jsNum n))))) ∧
    (∀ b, encodeBody (hGet hs "Content-Type".data) (some (.jsBool b)) =
      (some "application/json".data, some (.jsStr (jsonStringify (.jsBool b))))) ∧
    (encodeBody (hGet hs "Content-Type".data) (some .jsNull) =
      (some "application/json".data, some (.jsStr (jsonStringify .jsNull)))) ∧
    (encodeBody (hGet hs "Content-Type".data)
        (some (.jsObj [("name".data, .jsStr "a".data)])) =
      (some "application/json".data, some (.jsStr "\x7b\"name\":\"a\"\x7d".data))) := by
  rw [h]
  refine ⟨fun e => rfl, fun bs => rfl, fun e => rfl, fun s => rfl, fun fs => rfl,
    fun xs => rfl, fun n => rfl, fun b => rfl, rfl, ?_⟩
  rfl

/-- Witness for C1 at the concrete scenario body with no caller headers. -/
theorem claim1_witness :
    encodeBody (hGet (headersNew 1 []) "Content-Type".data)
        (some (.jsObj [("name".data, .jsStr "a".data)])) =
      (some "application/json".data, some (.jsStr "\x7b\"name\":\"a\"\x7d".data)) :=
  (claim1_body_codec (headersNew 1 []) (by decide)).2.2.2.2.2.2.2.2.2

/-- Claim C2 (confirmed): when the caller's header set contains a
`Content-Type` header and a logical body is supplied, the body codec passes
the body through unchanged for every runtime shape (no classification, no
serialization, no content-type inference), and the transport call receives
exactly the caller's logical body. -/
theorem claim2_explicit_content_type (ri : RequestInitM) (cookies : JSStr)
    (fh : Nat) (ct : JSStr)
    (h : hGet (headersNew fh ri.headers) "Content-Type".data = some ct) :
    (∀ v, encodeBody (hGet (headersNew fh ri.headers) "Content-Type".data) (some v) =
      (some ct, some v)) ∧
    (pipelineRequest ri cookies fh).1.body = ri.body := by
  constructor
  · intro v
    rw [h]
    rfl
  · show (buildTransportRequest _ _ (encodeBody _ ri.body).2, _).1.body = ri.body
    rw [h]
    cases ri.body <;> rfl

/-- Witness for C2: `Content-Type: text/csv` with an object body reaches the
transport untouched. -/
theorem claim2_witness :
    (pipelineRequest
        { headers := [("Content-Type".data, "text/csv".data)],
          body := some (.jsObj [("name".data, .jsStr "a".data)]) }
        [] 1).1.body = some (.jsObj [("name".data, .jsStr "a".data)]) :=
  (claim2_explicit_content_type
    { headers := [("Content-Type".data, "text/csv".data)],
      body := some (.jsObj [("name".data, .jsStr "a".data)]) }
    [] 1 "text/csv".data (by decide)).2

end XFetch

namespace XFetch

/-- Claim C3 (confirmed): in the default `"auto"` resolution the response is
decoded by its `content-type` header, the checks applied in the source's
sequential order: an absent header yields the unread stream; a content-type
containing `application/json` is parsed as JSON (via text plus the reviver
when one is configured, directly otherwise); otherwise
`application/octet-stream` parses as blob; otherwise `text/plain` reads as
text; anything else yields the unread stream — and `application/octet-stream`
in particular resolves to a blob outcome, not text or JSON. -/
theorem claim3_auto_resolution :
    (∀ r, resolveAuto none r = .stream) ∧
    (∀ c, jsIncludes c "application/json".data = true →
      resolveAuto (some c) true = .jsonReviverParsed ∧
      resolveAuto (some c) false = .jsonParsed) ∧
    (∀ c r, jsIncludes c "application/json".data = false →
      jsIncludes c "application/octet-stream".data = true →
      resolveAuto (some c) r = .blobData) ∧
    (∀ c r, jsIncludes c "application/json".data = false →
      jsIncludes c "application/octet-stream".data = false →
      jsIncludes c "text/plain".data = true →
      resolveAuto (some c) r = .textData) ∧
    (∀ c r, jsIncludes c "application/json".data = false →
      jsIncludes c "application/octet-stream".data = false →
      jsIncludes c "text/plain".data = false →
      resolveAuto (some c) r = .stream) ∧
    (∀ r, resolveAuto (some "application/octet-stream".data) r = .blobData) := by
  refine ⟨fun r => rfl, ?_, ?_, ?_, ?_, ?_⟩
  · intro c hj
    simp [resolveAuto, hj]
  · intro c r hj ho
    simp [resolveAuto, hj, ho]
  · intro c r hj ho ht
    simp [resolveAuto, hj, ho, ht]
  · intro c r hj ho ht
    simp [resolveAuto, hj, ho, ht]
  · intro r
    cases r
    · decide
    · decide

/-- Witness for C3 at the concrete content-type `application/json` with a
reviver configured. -/
theorem claim3_witness :
    resolveAuto (some "application/json".data) true = .jsonReviverParsed :=
  (claim3_auto_resolution.2.1 "application/json".data (by decide)).1

/-- Claim C4 (confirmed): a response whose ok flag is false resolves to
`undefined` without error when `opaqueOk` is set and the response type is
`"opaque"`, and otherwise fails with the `Response not ok` error that
carries the response (so the error's response status equals the HTTP
status) and has an `undefined` cause. -/
theorem claim4_not_ok (opaqueOk : Bool) (m : JSStr) (r : RespM)
    (h : r.ok = false) :
    (opaqueOk = true ∧ r.rtype = "opaque".data →
      okCheck opaqueOk m r = .resolvedUndefined) ∧
    (¬(opaqueOk = true ∧ r.rtype = "opaque".data) →
      okCheck opaqueOk m r = .failed ⟨m, "Response not ok".data, some r, none⟩ ∧
      (ErrM.mk m "Response not ok".data (some r) none).response = some r ∧
      (ErrM.mk m "Response not ok".data (some r) none).cause = none ∧
      ((ErrM.mk m "Response not ok".data (some r) none).response.map RespM.status
        = some r.status)) := by
  constructor
  · rintro ⟨h1, h2⟩
    simp [okCheck, h, h1, h2]
  · intro hn
    refine ⟨?_, rfl, rfl, rfl⟩
    by_cases ho : opaqueOk = true
    · have h2 : r.rtype ≠ "opaque".data := fun hc => hn ⟨ho, hc⟩
      simp [okCheck, h, ho, h2]
    · have ho2 : opaqueOk = false := by simpa using ho
      simp [okCheck, h, ho2]

/-- Witness for C4 at a concrete 403 response without the opaque opt-in. -/
theorem claim4_witness :
    okCheck false "GET".data { ok := false, status := 403 } =
      .failed ⟨"GET".data, "Response not ok".data,
        some { ok := false, status := 403 }, none⟩ :=
  ((claim4_not_ok false "GET".data { ok := false, status := 403 } rfl).2
    (by simp)).1

/-- Claim C10 (confirmed): a CSRF configuration whose explicit token is the
empty string (the only falsy string) is treated as having no token:
resolution falls through to the cookie lookup (or to the empty string when
no cookie name is configured), and the CSRF header is still set. -/
theorem claim10_empty_token (c : CsrfCfg) (m cookies : JSStr)
    (htok : c.token = some [])
    (hgate : csrfGate c.defaultMatcher m = true) :
    csrfTokenValue c.token c.fromCookie cookies =
      csrfTokenValue none c.fromCookie cookies ∧
    csrfInject (some c) m cookies =
      some (csrfHeaderName c.headerName, csrfTokenValue none c.fromCookie cookies) ∧
    (c.fromCookie = none → csrfTokenValue none c.fromCookie cookies = []) := by
  refine ⟨?_, ?_, ?_⟩
  · rw [htok]
    rfl
  · simp [csrfInject, hgate, htok]
    rfl
  · intro hfc
    rw [hfc]
    rfl

/-- Witness for C10 at a concrete empty-token configuration with a cookie
fallback. -/
theorem claim10_witness :
    csrfInject (some { token := some [], fromCookie := some "c".data }) "GET".data
        "c=x".data =
      some (csrfHeaderName none, csrfTokenValue none (some "c".data) "c=x".data) :=
  (claim10_empty_token { token := some [], fromCookie := some "c".data }
    "GET".data "c=x".data rfl rfl).2.1

end XFetch

namespace XFetch

/-- Counterexample to C8 as stated: with configured method `"post"` the
transport primitive receives the raw `"post"`, not the upper-case
normalization `"POST"` used by the rest of the pipeline — the source passes
`requestInit.method`, not its normalized local `method`, to the transport
call. -/
theorem claim8_counterexample :
    (pipelineRequest { method := some "post".data } [] 1).1.method
        = some "post".data ∧
    (pipelineRequest { method := some "post".data } [] 1).1.method
        ≠ some (normalizedMethod (some "post".data)) ∧
    normalizedMethod (some "post".data) = "POST".data := by
  refine ⟨rfl, ?_, by decide⟩
  show some "post".data ≠ some (normalizedMethod (some "post".data))
  decide

/-- Claim C8 amended: the method handed to the transport primitive is the
configured method value verbatim (absent when unset); the upper-case-
normalized method defaulting to `GET` is the pipeline's local method (used
by the CSRF gate and constructed errors), and normalization upper-cases any
non-empty configured method. -/
theorem claim8_amended (ri : RequestInitM) (cookies : JSStr) (fh : Nat) :
    (pipelineRequest ri cookies fh).1.method = ri.method ∧
    (pipelineRequest ri cookies fh).2 = normalizedMethod ri.method ∧
    normalizedMethod none = "GET".data ∧
    (∀ s, normalizedMethod (some s) = if s = [] then "GET".data else upperStr s) := by
  refine ⟨rfl, rfl, rfl, ?_⟩
  intro s
  by_cases hs : s = []
  · simp [normalizedMethod, hs]
    rfl
  · simp [normalizedMethod, hs]

/-- Counterexample to C9 as stated: a pre-built `URLSearchParams` collection
is returned by `queryParams` as the very same instance (the object identity
`5` is preserved instead of the fresh identity `6`), so the caller's query
collection is not copied into a fresh instance. -/
theorem claim9_counterexample :
    (queryParamsM (Sum.inr ⟨5, [("a".data, "1".data)]⟩) none 6).id = 5 ∧
    (queryParamsM (Sum.inr ⟨5, [("a".data, "1".data)]⟩) none 6).id ≠ 6 := by
  exact ⟨rfl, by decide⟩

/-- Claim C9 amended: no caller-supplied configuration object is mutated:
a pre-built `URLSearchParams` is reused as-is and only read, a record query
map is encoded into a fresh `URLSearchParams` instance, the caller's headers
are copied into a fresh `Headers` instance, and header mutation acts on the
instance holding the pipeline's copy (preserving that instance's identity,
never the caller's). -/
theorem claim9_amended :
    (∀ u fmt fresh, queryParamsM (Sum.inr u) fmt fresh = u) ∧
    (∀ rec0 fmt fresh, (queryParamsM (Sum.inl rec0) fmt fresh).id = fresh) ∧
    (∀ fresh init, (headersNew fresh init).id = fresh) ∧
    (∀ h n v, (hSet h n v).id = h.id) :=
  ⟨fun _ _ _ => rfl, fun _ _ _ => rfl, fun _ _ => rfl, fun _ _ _ => rfl⟩

end XFetch

namespace XFetch

/-- Unfolding equation for `jsSplitChar` on a cons cell. -/
theorem jsSplitChar_cons (c : Char) (t : JSStr) (sep : Char) :
    jsSplitChar (c :: t) sep =
      if c = sep then [] :: jsSplitChar t sep
      else
        match jsSplitChar t sep with
        | [] => [[c]]
        | g :: gs => (c :: g) :: gs := rfl

/-- A split never produces the empty list of groups. -/
theorem jsSplitChar_ne_nil (s : JSStr) (sep : Char) : jsSplitChar s sep ≠ [] := by
  induction s with
  | nil => simp [jsSplitChar]
  | cons c t ih =>
    rw [jsSplitChar_cons]
    by_cases hc : c = sep
    · simp [hc]
    · simp only [if_neg hc]
      cases hsplit : jsSplitChar t sep with
      | nil => simp
      | cons g gs => simp

/-- The first group of a split is the run of non-separator characters at the
front of the string. -/
theorem jsSplitChar_head (s : JSStr) (sep : Char) :
    (jsSplitChar s sep).head? = some (s.takeWhile (fun c => c != sep)) := by
  induction s with
  | nil => rfl
  | cons c t ih =>
    rw [jsSplitChar_cons]
    by_cases hc : c = sep
    · simp [hc]
    · simp only [if_neg hc]
      cases hsplit : jsSplitChar t sep with
      | nil => exact absurd hsplit (jsSplitChar_ne_nil t sep)
      | cons g gs =>
        rw [hsplit] at ih
        simp only [List.head?] at ih
        have hg : g = t.takeWhile (fun c => c != sep) := by
          simpa using ih
        simp [List.takeWhile_cons, hc, hg]

/-- Splitting a string whose first separator occurrence is explicit: the
part before it becomes the first group. -/
theorem jsSplitChar_append_sep (a b : JSStr) (sep : Char)
    (h : ∀ x ∈ a, x ≠ sep) :
    jsSplitChar (a ++ sep :: b) sep = a :: jsSplitChar b sep := by
  induction a with
  | nil => simp [jsSplitChar_cons]
  | cons c a2 ih =>
    have hc : c ≠ sep := h c (by simp)
    have ih2 : jsSplitChar (a2 ++ sep :: b) sep = a2 :: jsSplitChar b sep :=
      ih (fun x hx => h x (by simp [hx]))
    rw [List.cons_append, jsSplitChar_cons, if_neg hc, ih2]

/-- The cookie value the source extracts is the segment of the matching
cookie between its first and its second `=`. -/
theorem cookieLookup_between (cs nm a b : JSStr)
    (hfind : (jsSplitChar cs ';').find? (fun ck => jsStartsWith (jsTrim ck) nm)
      = some (a ++ '=' :: b))
    (ha : ∀ x ∈ a, x ≠ '=') :
    cookieLookup cs nm = b.takeWhile (fun c => c != '=') := by
  unfold cookieLookup
  rw [hfind]
  show (jsSplitChar (a ++ '=' :: b) '=').getD 1 [] = _
  rw [jsSplitChar_append_sep a b '=' ha]
  have hh := jsSplitChar_head b '='
  cases hsplit : jsSplitChar b '=' with
  | nil => exact absurd hsplit (jsSplitChar_ne_nil b '=')
  | cons g gs =>
    rw [hsplit] at hh
    simp only [List.head?] at hh
    have hg : g = b.takeWhile (fun c => c != '=') := by simpa using hh
    simp [List.getD, hg]

end XFetch

namespace XFetch

/-- Counterexample to C5 as stated: for cookie list `c=a=b` the injected
header value is `a` — the segment between the first and second `=` — and
not the full substring `a=b` after the first `=` that the claim states. -/
theorem claim5_counterexample :
    csrfInject (some { fromCookie := some "c".data }) "POST".data "c=a=b".data
      = some ("X-CSRF-TOKEN".data, "a".data) ∧
    csrfInject (some { fromCookie := some "c".data }) "POST".data "c=a=b".data
      ≠ some ("X-CSRF-TOKEN".data, "a=b".data) := by
  constructor
  · rfl
  · decide

/-- Claim C5 amended: under the method gate (defaultMatcher unset, or
method in POST/PUT/DELETE/PATCH), the injected header is the configured (or
default `X-CSRF-TOKEN`) name with the value resolved as: the explicit token
when non-empty; else, for a non-empty configured cookie name, the cookie
lookup; else the empty string — where the cookie lookup takes the first
semicolon-separated cookie whose trimmed text starts with the name and
extracts the segment between the first and the second `=` (not everything
after the first `=`). -/
theorem claim5_amended (c : CsrfCfg) (m cookies : JSStr)
    (hgate : c.defaultMatcher = false ∨ m = "POST".data ∨ m = "PUT".data ∨
      m = "DELETE".data ∨ m = "PATCH".data) :
    csrfInject (some c) m cookies =
      some (csrfHeaderName c.headerName,
        csrfTokenValue c.token c.fromCookie cookies) ∧
    (∀ t, c.token = some t → t ≠ [] →
      csrfTokenValue c.token c.fromCookie cookies = t) ∧
    ((c.token = none ∨ c.token = some []) → ∀ cn, c.fromCookie = some cn →
      cn ≠ [] →
      csrfTokenValue c.token c.fromCookie cookies = cookieLookup cookies cn) ∧
    ((c.token = none ∨ c.token = some []) →
      (c.fromCookie = none ∨ c.fromCookie = some []) →
      csrfTokenValue c.token c.fromCookie cookies = []) ∧
    (∀ cs nm a b,
      (jsSplitChar cs ';').find? (fun ck => jsStartsWith (jsTrim ck) nm)
          = some (a ++ '=' :: b) →
      (∀ x ∈ a, x ≠ '=') →
      cookieLookup cs nm = b.takeWhile (fun ch => ch != '=')) ∧
    ((c.headerName = none ∨ c.headerName = some []) →
      csrfHeaderName c.headerName = "X-CSRF-TOKEN".data) := by
  have hg : csrfGate c.defaultMatcher m = true := by
    unfold csrfGate
    rcases hgate with h | h | h | h | h
    · simp [h]
    · simp [h]
    · simp [h]
    · simp [h]
    · simp [h]
  refine ⟨?_, ?_, ?_, ?_, cookieLookup_between, ?_⟩
  · simp [csrfInject, hg]
  · intro t ht hne
    simp [csrfTokenValue, ht, hne]
  · intro htok cn hcn hne
    rcases htok with h | h
    · simp [csrfTokenValue, h, hcn, hne]
    · simp [csrfTokenValue, h, hcn, hne]
  · intro htok hfc
    rcases htok with h | h <;> rcases hfc with h2 | h2 <;>
      simp [csrfTokenValue, h, h2]
  · intro hh
    rcases hh with h | h
    · simp [csrfHeaderName, h]
    · simp [csrfHeaderName, h]

/-- Witness for C5 (amended) at a concrete POST with a cookie-sourced
token. -/
theorem claim5_amended_witness :
    csrfInject (some { fromCookie := some "c".data }) "POST".data "c=x".data =
      some (csrfHeaderName (none : Option JSStr),
        csrfTokenValue none (some "c".data) "c=x".data) :=
  (claim5_amended { fromCookie := some "c".data } "POST".data "c=x".data
    (Or.inr (Or.inl rfl))).1

end XFetch

namespace XFetch

/-- After a `set` of key `k`, the entries with key `k` are exactly the one
set pair. -/
theorem uspSet_filter_self (es : List (JSStr × JSStr)) (k v : JSStr) :
    (uspSet es k v).filter (fun p => p.1 == k) = [(k, v)] := by
  induction es with
  | nil => simp [uspSet]
  | cons p rest ih =>
    obtain ⟨k0, v0⟩ := p
    by_cases hk : k0 = k
    · subst hk
      rw [uspSet, if_pos rfl]
      rw [List.filter_cons_of_pos (by simp)]
      rw [List.filter_filter]
      have : ∀ q : JSStr × JSStr,
          ((q.1 == k0) && decide (q.1 ≠ k0)) = false := by
        intro q
        by_cases h : q.1 = k0 <;> simp [h]
      rw [List.filter_eq_nil_iff.2 (fun a _ => by simp [this a])]
    · rw [uspSet, if_neg hk]
      rw [List.filter_cons_of_neg (by simp [hk])]
      exact ih

/-- A `set` of key `k` leaves the entries of any other key untouched. -/
theorem uspSet_filter_other (es : List (JSStr × JSStr)) (k v j : JSStr)
    (h : j ≠ k) :
    (uspSet es k v).filter (fun p => p.1 == j) = es.filter (fun p => p.1 == j) := by
  induction es with
  | nil => simp [uspSet, Ne.symm h]
  | cons p rest ih =>
    obtain ⟨k0, v0⟩ := p
    by_cases hk : k0 = k
    · subst hk
      rw [uspSet, if_pos rfl]
      rw [List.filter_cons_of_neg (by simp [Ne.symm h]),
        List.filter_cons_of_neg (by simp [Ne.symm h])]
      rw [List.filter_filter]
      refine List.filter_congr ?_
      intro a _
      by_cases ha : a.1 = j <;> simp [ha, h]
    · rw [uspSet, if_neg hk]
      by_cases hj : k0 = j
      · rw [List.filter_cons_of_pos (by simp [hj]),
          List.filter_cons_of_pos (by simp [hj]), ih]
      · rw [List.filter_cons_of_neg (by simp [hj]),
          List.filter_cons_of_neg (by simp [hj])]
        exact ih

/-- An `append` of key `k` leaves the entries of any other key untouched. -/
theorem uspAppend_filter_other (es : List (JSStr × JSStr)) (k v j : JSStr)
    (h : j ≠ k) :
    (uspAppend es k v).filter (fun p => p.1 == j)
      = es.filter (fun p => p.1 == j) := by
  simp [uspAppend, List.filter_append, Ne.symm h]

/-- Appending all elements of a sequence under key `k` puts exactly those
elements, in order, at the end of the `k` entries. -/
theorem appendAll_filter_self (vs : List JSStr) (es : List (JSStr × JSStr))
    (k : JSStr) :
    ((vs.foldl (fun a x => uspAppend a k x) es).filter (fun p => p.1 == k))
      = es.filter (fun p => p.1 == k) ++ vs.map (fun v => (k, v)) := by
  induction vs generalizing es with
  | nil => simp
  | cons v vs2 ih =>
    rw [List.foldl_cons, ih]
    simp [uspAppend, List.filter_append]

/-- Appending all elements of a sequence under key `k` leaves other keys
untouched. -/
theorem appendAll_filter_other (vs : List JSStr) (es : List (JSStr × JSStr))
    (k j : JSStr) (h : j ≠ k) :
    ((vs.foldl (fun a x => uspAppend a k x) es).filter (fun p => p.1 == j))
      = es.filter (fun p => p.1 == j) := by
  induction vs generalizing es with
  | nil => rfl
  | cons v vs2 ih =>
    rw [List.foldl_cons, ih, uspAppend_filter_other _ _ _ _ h]

/-- One loop iteration of the query encoder leaves the entries of keys other
than its own key untouched. -/
theorem qpStep_filter_other (fmt : Option (JSStr → QVal → JSStr))
    (acc : List (JSStr × JSStr)) (kv : JSStr × Option QVal) (j : JSStr)
    (h : kv.1 ≠ j) :
    (qpStep fmt acc kv).filter (fun p => p.1 == j)
      = acc.filter (fun p => p.1 == j) := by
  obtain ⟨k, ov⟩ := kv
  cases ov with
  | none => rfl
  | some v =>
    cases fmt with
    | some f => exact uspSet_filter_other _ _ _ _ (Ne.symm h)
    | none =>
      cases v with
      | arr vs => exact appendAll_filter_other _ _ _ _ (Ne.symm h)
      | prim s => exact uspSet_filter_other _ _ _ _ (Ne.symm h)

/-- Folding the query encoder over entries whose keys all differ from `j`
leaves the entries of key `j` untouched. -/
theorem foldl_filter_other (fmt : Option (JSStr → QVal → JSStr))
    (rest : List (JSStr × Option QVal)) (acc : List (JSStr × JSStr)) (j : JSStr)
    (h : ∀ kv ∈ rest, kv.1 ≠ j) :
    ((rest.foldl (qpStep fmt) acc).filter (fun p => p.1 == j))
      = acc.filter (fun p => p.1 == j) := by
  induction rest generalizing acc with
  | nil => rfl
  | cons kv rest2 ih =>
    rw [List.foldl_cons, ih _ (fun x hx => h x (by simp [hx])),
      qpStep_filter_other _ _ _ _ (h kv (by simp))]

end XFetch

namespace XFetch

/-- Counterexample to C6 as stated: with a formatter present, a key whose
value is a sequence of length 2 produces one single `set` entry holding the
formatted value, not 2 repeated-key entries. -/
theorem claim6_counterexample :
    queryParamsFn [("a".data, some (.arr ["1".data, "2".data]))]
        (some (fun _ _ => "X".data)) = [("a".data, "X".data)] ∧
    (queryParamsFn [("a".data, some (.arr ["1".data, "2".data]))]
        (some (fun _ _ => "X".data))).length ≠ 2 := by
  exact ⟨rfl, by decide⟩

/-- Claim C6 amended: in a query-parameter record (unique keys, not a
pre-built collection) a key with an `undefined` value never appears in the
output; with no formatter a sequence value of length N produces exactly the
N repeated-key entries in supplied order; with a formatter every defined
key (sequence or scalar) produces exactly one entry whose value is the
formatted key/value pair — sequences are not expanded through a
formatter. -/
theorem claim6_amended (qp : List (JSStr × Option QVal))
    (hnd : (qp.map Prod.fst).Nodup) :
    (∀ fmt k, (k, (none : Option QVal)) ∈ qp →
      k ∉ (queryParamsFn qp fmt).map Prod.fst) ∧
    (∀ k vs, (k, some (QVal.arr vs)) ∈ qp →
      (queryParamsFn qp none).filter (fun p => p.1 == k)
          = vs.map (fun v => (k, v)) ∧
      ((queryParamsFn qp none).filter (fun p => p.1 == k)).length = vs.length) ∧
    (∀ f k v, (k, some v) ∈ qp →
      (queryParamsFn qp (some f)).filter (fun p => p.1 == k) = [(k, f k v)]) := by
  have keysplit : ∀ (x : Option QVal) (l1 l2 : List (JSStr × Option QVal)) (k : JSStr),
      qp = l1 ++ (k, x) :: l2 →
      (∀ kv ∈ l1, kv.1 ≠ k) ∧ (∀ kv ∈ l2, kv.1 ≠ k) := by
    intro x l1 l2 k hqp
    have h2 : ((l1 ++ (k, x) :: l2).map Prod.fst).Nodup := hqp ▸ hnd
    rw [List.map_append, List.map_cons] at h2
    rw [List.nodup_middle] at h2
    have h3 := (List.nodup_cons.1 h2).1
    rw [List.mem_append] at h3
    constructor
    · intro kv hkv hc
      have hmm : k ∈ l1.map Prod.fst := by
        rw [← hc]
        exact List.mem_map_of_mem Prod.fst hkv
      exact h3 (Or.inl hmm)
    · intro kv hkv hc
      have hmm : k ∈ l2.map Prod.fst := by
        rw [← hc]
        exact List.mem_map_of_mem Prod.fst hkv
      exact h3 (Or.inr hmm)
  refine ⟨?_, ?_, ?_⟩
  · intro fmt k hk
    obtain ⟨l1, l2, hqp⟩ := List.append_of_mem hk
    obtain ⟨hl1, hl2⟩ := keysplit none l1 l2 k hqp
    have hflt : (queryParamsFn qp fmt).filter (fun p => p.1 == k) = [] := by
      rw [hqp]
      unfold queryParamsFn
      rw [List.foldl_append, List.foldl_cons]
      rw [foldl_filter_other fmt l2 _ k hl2]
      show (qpStep fmt (l1.foldl (qpStep fmt) []) (k, none)).filter
        (fun p => p.1 == k) = []
      rw [show qpStep fmt (l1.foldl (qpStep fmt) []) (k, none)
          = l1.foldl (qpStep fmt) [] from rfl]
      rw [foldl_filter_other fmt l1 [] k hl1]
      rfl
    intro hmem
    obtain ⟨p, hp, hfst⟩ := List.mem_map.1 hmem
    have : p ∈ (queryParamsFn qp fmt).filter (fun p => p.1 == k) :=
      List.mem_filter.2 ⟨hp, by simp [hfst]⟩
    rw [hflt] at this
    cases this
  · intro k vs hk
    obtain ⟨l1, l2, hqp⟩ := List.append_of_mem hk
    obtain ⟨hl1, hl2⟩ := keysplit _ l1 l2 k hqp
    have hmain : (queryParamsFn qp none).filter (fun p => p.1 == k)
        = vs.map (fun v => (k, v)) := by
      rw [hqp]
      unfold queryParamsFn
      rw [List.foldl_append, List.foldl_cons]
      rw [foldl_filter_other none l2 _ k hl2]
      show ((vs.foldl (fun a x => uspAppend a k x)
        (l1.foldl (qpStep none) [])).filter (fun p => p.1 == k)) = _
      rw [appendAll_filter_self]
      rw [foldl_filter_other none l1 [] k hl1]
      rfl
    exact ⟨hmain, by rw [hmain, List.length_map]⟩
  · intro f k v hk
    obtain ⟨l1, l2, hqp⟩ := List.append_of_mem hk
    obtain ⟨hl1, hl2⟩ := keysplit _ l1 l2 k hqp
    rw [hqp]
    unfold queryParamsFn
    rw [List.foldl_append, List.foldl_cons]
    rw [foldl_filter_other (some f) l2 _ k hl2]
    show ((uspSet (l1.foldl (qpStep (some f)) []) k (f k v)).filter
      (fun p => p.1 == k)) = _
    rw [uspSet_filter_self]

/-- Witness for C6 (amended) at a concrete two-element sequence without a
formatter. -/
theorem claim6_witness :
    (queryParamsFn [("a".data, some (QVal.arr ["1".data, "2".data]))]
        none).filter (fun p => p.1 == "a".data)
      = [("a".data, "1".data), ("a".data, "2".data)] :=
  ((claim6_amended [("a".data, some (QVal.arr ["1".data, "2".data]))]
    (by decide)).2.1 "a".data ["1".data, "2".data] (by decide)).1

end XFetch

namespace XFetch

/-- Starting with a single character, in `head?` terms. -/
theorem jsStartsWith_single (p : JSStr) (c : Char) :
    jsStartsWith p [c] = true ↔ p.head? = some c := by
  cases p with
  | nil => simp [jsStartsWith]
  | cons a t => simp [jsStartsWith]

/-- Ending with a single character, in `getLast?` terms. -/
theorem jsEndsWith_single (p : JSStr) (c : Char) :
    jsEndsWith p [c] = true ↔ p.getLast? = some c := by
  unfold jsEndsWith
  rw [show ([c] : JSStr).reverse = [c] from rfl]
  rw [jsStartsWith_single, List.head?_reverse]

/-- Starting with a two-character pattern, on an exposed two-cons list. -/
theorem jsStartsWith_pair (a b : Char) (t : JSStr) (c d : Char) :
    jsStartsWith (a :: b :: t) [c, d] = ((a == c) && (b == d)) := by
  show ((a == c) && ((b == d) && jsStartsWith t [])) = _
  cases t <;> simp [jsStartsWith, Bool.and_comm, Bool.and_assoc]

/-- A list extended by two final slashes ends with a double slash. -/
theorem jsEndsWith_concat_pair (q : JSStr) (c d : Char) :
    jsEndsWith (q ++ [c, d]) [c, d] = true := by
  unfold jsEndsWith
  rw [List.reverse_append]
  show jsStartsWith (d :: c :: q.reverse) [d, c] = true
  rw [jsStartsWith_pair]
  simp

/-- Any non-empty list splits off its last element. -/
theorem exists_concat (p : JSStr) (h : p ≠ []) : ∃ q c, p = q ++ [c] := by
  cases p using List.reverseRecOn with
  | nil => exact absurd rfl h
  | append_singleton q c => exact ⟨q, c, rfl⟩

end XFetch

namespace XFetch

/-- Under the stated shape conditions, `normalizePath` yields a well-formed
segment: empty, or `/`-led with no second leading slash and no trailing
slash. -/
theorem normalizePath_segOk (p : JSStr)
    (h1 : jsStartsWith p ['/', '/'] = false)
    (h2 : jsEndsWith p ['/', '/'] = false)
    (h3 : jsStartsWith p ['/'] = true ∨ jsEndsWith p ['/'] = false) :
    segOk (normalizePath p) = true := by
  by_cases hp0 : p = [] ∨ p = ['/']
  · rw [normalizePath, if_pos hp0]
    rfl
  · push_neg at hp0
    obtain ⟨hpn, hps⟩ := hp0
    by_cases hs : jsStartsWith p ['/'] = true
    · -- p starts with '/'
      obtain ⟨p1, rfl⟩ : ∃ p1, p = '/' :: p1 := by
        cases p with
        | nil => exact absurd rfl hpn
        | cons a t =>
          rw [jsStartsWith_single] at hs
          simp at hs
          exact ⟨t, by rw [hs]⟩
      have hp1n : p1 ≠ [] := fun hc => hps (by rw [hc])
      obtain ⟨x, t, rfl⟩ : ∃ x t, p1 = x :: t := by
        cases p1 with
        | nil => exact absurd rfl hp1n
        | cons x t => exact ⟨x, t, rfl⟩
      have hx : x ≠ '/' := by
        intro hc
        rw [hc, jsStartsWith_pair] at h1
        simp at h1
      by_cases hle : ('/' :: x :: t : JSStr).length > 1 ∧
          jsEndsWith ('/' :: x :: t) ['/'] = true
      · rw [normalizePath, if_neg (by simp), if_neg (by simp [hs]), if_pos hle]
        have hgl : ('/' :: x :: t : JSStr).getLast? = some '/' :=
          (jsEndsWith_single _ _).1 hle.2
        obtain ⟨q, c, heq⟩ := exists_concat ('/' :: x :: t) (by simp)
        have hc : c = '/' := by
          rw [heq, List.getLast?_concat] at hgl
          exact Option.some.inj hgl
        subst hc
        rw [heq, List.dropLast_concat]
        have hqn : q ≠ [] := by
          intro hq
          rw [hq] at heq
          simp at heq
        obtain ⟨y, q1, rfl⟩ : ∃ y q1, q = y :: q1 := by
          cases q with
          | nil => exact absurd rfl hqn
          | cons y q1 => exact ⟨y, q1, rfl⟩
        have hy : y = '/' := by
          rw [List.cons_append] at heq
          exact (List.cons.inj heq).1.symm
        subst hy
        have hq1 : (x :: t : JSStr) = q1 ++ ['/'] := by
          rw [List.cons_append] at heq
          exact (List.cons.inj heq).2
        -- second char of q is not '/'
        have hdrop : q1.head? ≠ some '/' := by
          cases q1 with
          | nil => simp
          | cons z q2 =>
            have hz : z = x := by
              rw [List.cons_append] at hq1
              exact ((List.cons.inj hq1).1).symm
            rw [hz]
            simp [hx]
        -- q does not end with '/'
        have hlast : (('/' :: q1 : JSStr)).getLast? ≠ some '/' := by
          intro hc2
          obtain ⟨r, d, hr⟩ := exists_concat ('/' :: q1) (by simp)
          have hd : d = '/' := by
            rw [hr, List.getLast?_concat] at hc2
            exact Option.some.inj hc2
          subst hd
          have : ('/' :: x :: t : JSStr) = r ++ ['/', '/'] := by
            rw [heq, hr]
            simp
          rw [this, jsEndsWith_concat_pair] at h2
          cases h2
        have hlast2 : q1.getLast? ≠ some '/' := by
          intro hc3
          cases q1 with
          | nil => simp at hc3
          | cons z q2 =>
            rw [List.getLast?_cons_cons] at hlast
            exact hlast hc3
        simp [segOk, hdrop, hlast, hlast2]
      · rw [normalizePath, if_neg (by simp), if_neg (by simp [hs]), if_neg hle]
        have hend : jsEndsWith ('/' :: x :: t) ['/'] = false := by
          by_cases he : jsEndsWith ('/' :: x :: t) ['/'] = true
          · exact absurd ⟨by simp, he⟩ hle
          · simpa using he
        have hlast : ('/' :: x :: t : JSStr).getLast? ≠ some '/' := by
          intro hc2
          rw [(jsEndsWith_single _ _).2 hc2] at hend
          cases hend
        have hlast3 : (x :: t : JSStr).getLast? ≠ some '/' := by
          simpa using hlast
        simp [segOk, hx, hlast, hlast3]
    · -- p does not start with '/'
      have he : jsEndsWith p ['/'] = false := by
        rcases h3 with h | h
        · exact absurd h hs
        · exact h
      rw [normalizePath, if_neg (by exact fun hc => absurd hc (by
            push_neg
            exact ⟨hpn, hps⟩)),
        if_pos (by simpa using hs)]
      obtain ⟨a, t, rfl⟩ : ∃ a t, p = a :: t := by
        cases p with
        | nil => exact absurd rfl hpn
        | cons a t => exact ⟨a, t, rfl⟩
      have ha : a ≠ '/' := by
        intro hc
        rw [jsStartsWith_single] at hs
        exact hs (by rw [hc]; rfl)
      have hlast : (a :: t : JSStr).getLast? ≠ some '/' := by
        intro hc2
        rw [(jsEndsWith_single _ _).2 hc2] at he
        cases he
      obtain ⟨q, c, heq⟩ := exists_concat (a :: t) (by simp)
      have hlast2 : ('/' :: a :: t : JSStr).getLast? ≠ some '/' := by
        rw [heq]
        rw [show ('/' :: (q ++ [c]) : JSStr) = ('/' :: q) ++ [c] by simp]
        rw [List.getLast?_concat]
        rw [heq, List.getLast?_concat] at hlast
        exact hlast
      simp [segOk, ha, hlast, hlast2]

end XFetch

namespace XFetch

/-- A base URL that is not `"/"` and does not end in a double slash has no
trailing slash after `normalizeUrl`. -/
theorem normalizeUrl_no_trailing (b : JSStr)
    (hb1 : jsEndsWith b ['/', '/'] = false) (hb2 : b ≠ ['/']) :
    (normalizeUrl b).getLast? ≠ some '/' := by
  unfold normalizeUrl
  by_cases hle : b.length > 1 ∧ jsEndsWith b ['/'] = true
  · rw [if_pos hle]
    have hgl : b.getLast? = some '/' := (jsEndsWith_single _ _).1 hle.2
    obtain ⟨q, c, rfl⟩ := exists_concat b (by
      intro hc
      rw [hc] at hle
      simp at hle)
    have hc : c = '/' := by
      rw [List.getLast?_concat] at hgl
      exact Option.some.inj hgl
    subst hc
    rw [List.dropLast_concat]
    intro hq
    obtain ⟨r, d, rfl⟩ := exists_concat q (by
      intro hqe
      rw [hqe] at hq
      simp at hq)
    have hd : d = '/' := by
      rw [List.getLast?_concat] at hq
      exact Option.some.inj hq
    subst hd
    rw [show (r ++ ['/']) ++ ['/'] = r ++ ['/', '/'] by simp,
      jsEndsWith_concat_pair] at hb1
    cases hb1
  · rw [if_neg hle]
    intro hgl
    have hbe : jsEndsWith b ['/'] = true := (jsEndsWith_single _ _).2 hgl
    have hlen : ¬ b.length > 1 := fun hl => hle ⟨hl, hbe⟩
    obtain ⟨q, c, rfl⟩ := exists_concat b (by
      intro hc
      rw [hc] at hgl
      simp at hgl)
    have hq : q = [] := by
      cases q with
      | nil => rfl
      | cons z q2 =>
        exfalso
        apply hlen
        simp
    subst hq
    have hc : c = '/' := by
      rw [List.getLast?_concat] at hgl
      exact Option.some.inj hgl
    subst hc
    exact hb2 rfl

/-- `normalizePath` never drops a segment that is non-empty and not the bare
root. -/
theorem normalizePath_ne_nil (p : JSStr) (h1 : p ≠ []) (h2 : p ≠ ['/']) :
    normalizePath p ≠ [] := by
  unfold normalizePath
  rw [if_neg (by push_neg; exact ⟨h1, h2⟩)]
  by_cases hs : ¬ jsStartsWith p ['/']
  · rw [if_pos hs]
    simp
  · rw [if_neg hs]
    by_cases hle : p.length > 1 ∧ jsEndsWith p ['/'] = true
    · rw [if_pos hle]
      intro hc
      have := congrArg List.length hc
      rw [List.length_dropLast] at this
      simp at this
      omega
    · rw [if_neg hle]
      exact h1

/-- A segment with no trailing slash joins cleanly on its right. -/
theorem joinOk_of_left (a b : JSStr) (h : a.getLast? ≠ some '/') :
    joinOk a b = true := by
  simp [joinOk, h]

/-- A well-formed segment has no trailing slash (vacuously for the empty
segment, whose `getLast?` is `none`). -/
theorem segOk_no_trailing (a : JSStr) (h : segOk a = true) :
    a.getLast? ≠ some '/' := by
  rcases Bool.or_eq_true_iff.1 h with he | hc
  · have : a = [] := by simpa [List.isEmpty_iff] using he
    rw [this]
    simp
  · intro hgl
    have := (Bool.and_eq_true_iff.1 hc).2
    rw [hgl] at this
    simp at this

/-- `createUrl` with base URL and prefix but no query parameters and no path
variables is exactly the three-segment concatenation. -/
theorem createUrl_decomp (base pfx path : JSStr) :
    createUrl path { baseUrl := some base, pathPrefix := some pfx }
      = (if base = [] then [] else normalizeUrl base)
        ++ normalizePath pfx ++ normalizePath path := by
  unfold createUrl
  simp only [queryEntries, queryParamsFn, List.foldl_nil]
  by_cases hb : base = []
  · by_cases hp : pfx = []
    · simp [hb, hp, normalizePath]
    · simp [hb, hp]
  · by_cases hp : pfx = []
    · simp [hb, hp, normalizePath]
    · simp [hb, hp]

end XFetch

namespace XFetch

/-- Counterexample to C7 as stated: prefix `a/` with path `b` builds
`/a//b`, which contains a double slash at the prefix/path join point, and
the normalized prefix segment `/a/` keeps its trailing slash (the
trailing-slash strip only runs for segments that already start with
`/`). -/
theorem claim7_counterexample :
    createUrl "b".data { pathPrefix := some "a/".data } = "/a//b".data ∧
    jsIncludes (createUrl "b".data { pathPrefix := some "a/".data })
      "//".data = true ∧
    normalizePath "a/".data = "/a/".data ∧
    jsEndsWith (normalizePath "a/".data) "/".data = true := by
  refine ⟨rfl, by decide, by decide, by decide⟩

/-- Claim C7 amended: provided base, prefix and path do not start or end in
a double slash, the base URL is not the bare `/`, and prefix and path
either already start with `/` or do not end with `/`, the built URL is the
clean concatenation of the three normalized segments: the base keeps no
trailing slash, each normalized segment is empty or starts with exactly one
`/` and has no trailing slash, non-empty non-root segments are never
dropped, and no double slash arises at either join point. -/
theorem claim7_amended (base pfx path : JSStr)
    (hb1 : jsEndsWith base "//".data = false) (hb2 : base ≠ ['/'])
    (hp1 : jsStartsWith pfx "//".data = false)
    (hp2 : jsEndsWith pfx "//".data = false)
    (hp3 : jsStartsWith pfx "/".data = true ∨ jsEndsWith pfx "/".data = false)
    (hq1 : jsStartsWith path "//".data = false)
    (hq2 : jsEndsWith path "//".data = false)
    (hq3 : jsStartsWith path "/".data = true ∨ jsEndsWith path "/".data = false) :
    createUrl path { baseUrl := some base, pathPrefix := some pfx }
        = (if base = [] then [] else normalizeUrl base)
          ++ normalizePath pfx ++ normalizePath path ∧
    (if base = [] then [] else normalizeUrl base).getLast? ≠ some '/' ∧
    segOk (normalizePath pfx) = true ∧
    segOk (normalizePath path) = true ∧
    (pfx ≠ [] → pfx ≠ ['/'] → normalizePath pfx ≠ []) ∧
    (path ≠ [] → path ≠ ['/'] → normalizePath path ≠ []) ∧
    joinOk (if base = [] then [] else normalizeUrl base)
      (normalizePath pfx ++ normalizePath path) = true ∧
    joinOk (normalizePath pfx) (normalizePath path) = true := by
  have hbase : (if base = [] then [] else normalizeUrl base).getLast?
      ≠ some '/' := by
    by_cases hb : base = []
    · simp [hb]
    · rw [if_neg hb]
      exact normalizeUrl_no_trailing base hb1 hb2
  have hsegp := normalizePath_segOk pfx hp1 hp2 hp3
  have hsegq := normalizePath_segOk path hq1 hq2 hq3
  refine ⟨createUrl_decomp base pfx path, hbase, hsegp, hsegq,
    normalizePath_ne_nil pfx, normalizePath_ne_nil path,
    joinOk_of_left _ _ hbase, joinOk_of_left _ _ (segOk_no_trailing _ hsegp)⟩

/-- Witness for C7 (amended) at a concrete base, prefix and path. -/
theorem claim7_witness :
    createUrl "b".data
        { baseUrl := some "http://x".data, pathPrefix := some "/a/".data }
      = (if ("http://x".data : JSStr) = [] then []
          else normalizeUrl "http://x".data)
        ++ normalizePath "/a/".data ++ normalizePath "b".data :=
  (claim7_amended "http://x".data "/a/".data "b".data
    (by decide) (by decide) (by decide) (by decide) (Or.inl (by decide))
    (by decide) (by decide) (Or.inr (by decide))).1

end XFetch
